import Mathlib

/-!
Verification of the TaskManagerCLI task store against its specification.

The development shallowly embeds the task-record model and the pure
store operations of `src/core.py` and `codes/core.py`, together with the
serialization performed by the command layer (`src/commands.py`).
Strings are modelled as lists of characters (`Str`); the Python string
primitives used by the source (`str.strip`, `str.split`, `int(...)`,
`str.isdigit`, `",".join`, `str(...)` on integers) are modelled
explicitly below.  Interactive prompts are modelled by passing the
operator's final validated answers as explicit parameters.
-/

namespace TaskManager

/-- Strings are modelled as lists of characters. -/
abbrev Str := List Char

/-- Shorthand to write a modelled string from a literal. -/
def str (s : String) : Str := s.data

/-- Characters removed by Python's `str.strip()` (ASCII whitespace). -/
def isPySpace (c : Char) : Bool :=
  c = ' ' || c = '\t' || c = '\n' || c = '\r' || c = Char.ofNat 11 || c = Char.ofNat 12

/-- Python `str.strip()`: drop leading and trailing whitespace. -/
def pyStrip (l : Str) : Str :=
  ((l.dropWhile isPySpace).reverse.dropWhile isPySpace).reverse

/-- Python `str.split(sep)` with a one-character separator:
`"".split(";") = [""]`, separators delimit possibly empty fields. -/
def pySplit (sep : Char) : Str → List Str
  | [] => [[]]
  | c :: rest =>
    if c = sep then [] :: pySplit sep rest
    else
      match pySplit sep rest with
      | s :: ss => (c :: s) :: ss
      | [] => [[c]]

/-- Python `sep.join(list)`. -/
def pyJoin (sep : Str) : List Str → Str
  | [] => []
  | [x] => x
  | x :: y :: rest => x ++ sep ++ pyJoin sep (y :: rest)

/-- Numeric value of a digit string (underscores already removed). -/
def digitsVal (l : Str) : Nat :=
  l.foldl (fun a c => 10 * a + (c.toNat - 48)) 0

/-- Digit run accepted by Python's `int`: non-empty digits where single
underscores may appear between two digits. -/
def digitsU : Str → Bool
  | [] => false
  | [c] => c.isDigit
  | c :: c2 :: rest =>
    c.isDigit && (if c2 = '_' then digitsU rest else digitsU (c2 :: rest))

/-- Python `int(s)` on ASCII input: strip whitespace, optional sign,
then digits (with grouping underscores); `none` models `ValueError`. -/
def pyIntCore : Str → Option Int
  | [] => none
  | c :: rest =>
    if c = '+' then
      if digitsU rest then some ((digitsVal (rest.filter (fun x => x ≠ '_')) : Nat) : Int) else none
    else if c = '-' then
      if digitsU rest then some (-((digitsVal (rest.filter (fun x => x ≠ '_')) : Nat) : Int)) else none
    else
      if digitsU (c :: rest) then
        some ((digitsVal ((c :: rest).filter (fun x => x ≠ '_')) : Nat) : Int)
      else none

def pyInt? (l : Str) : Option Int := pyIntCore (pyStrip l)

/-- Python `str.isdigit()` on ASCII input. -/
def pyIsDigit (l : Str) : Bool :=
  !l.isEmpty && l.all Char.isDigit

/-- The decimal digit characters, by value. -/
def digitChar (r : Nat) : Char :=
  ['0', '1', '2', '3', '4', '5', '6', '7', '8', '9'].getD r '0'

/-- Digits of a positive number, most significant first (fuel-driven so
that the definition reduces by evaluation). -/
def natToDigsFuel : Nat → Nat → Str
  | 0, _ => []
  | fuel + 1, n => if n = 0 then [] else natToDigsFuel fuel (n / 10) ++ [digitChar (n % 10)]

def natToDigs (n : Nat) : Str := natToDigsFuel n n

/-- Python `str(n)` for a natural number. -/
def pyStrOfNat (n : Nat) : Str := if n = 0 then str "0" else natToDigs n

/-- Python `str(i)` for an integer. -/
def pyStrOfInt (i : Int) : Str :=
  if i < 0 then '-' :: pyStrOfNat i.natAbs else pyStrOfNat i.natAbs

/-! ## The task record and the parser (`src/core.py`, `parse_tasks`) -/

/-- A task record.  The `status` slot is `Option Str` because the Python
tuple slot can hold `None` (which `modify` in fact stores there); the
parser always fills it with a string. -/
structure Task where
  tid : Int
  desc : Str
  labels : List Str
  status : Option Str
  dep : Option Int
deriving DecidableEq, Repr

/-- Field 3 of a stored line: comma-joined labels or the token `None`;
tokens are stripped and empty tokens dropped (`parse_tasks`, labels). -/
def labelsOfField (f : Str) : List Str :=
  if f ≠ str "None" then ((pySplit ',' f).map pyStrip).filter (fun l => l ≠ []) else []

/-- Field 4 of a stored line: the stripped token, or `suspended` when
absent or blank (`parse_tasks`, status). -/
def statusOfField (f : Str) : Str :=
  if pyStrip f ≠ [] then pyStrip f else str "suspended"

/-- Field 5 of a stored line: an all-digits token gives a dependency,
anything else gives none (`parse_tasks`, dependencies). -/
def depOfField (f : Str) : Option Int :=
  if pyIsDigit (pyStrip f) then pyInt? (pyStrip f) else none

/-- The record built from the split fields of one line: id and
description are mandatory, labels, status and dependency fall back to
their defaults when the field is missing (`parse_tasks` loop body). -/
def parseFields (p0 p1 : Str) (rest : List Str) : Option Task :=
  match pyInt? p0 with
  | none => none
  | some tid =>
    some ⟨tid, p1,
      (match rest with | f2 :: _ => labelsOfField f2 | [] => []),
      some (match rest with | _ :: f3 :: _ => statusOfField f3 | _ => str "suspended"),
      (match rest with | _ :: _ :: f4 :: _ => depOfField f4 | _ => none)⟩

/-- One line of the task file (`parse_tasks` loop body): blank lines,
lines with fewer than two `;`-fields and lines whose first field is not
an integer are skipped (`none`). -/
def parseLine? (line : Str) : Option Task :=
  if pyStrip line = [] then none
  else
    match pySplit ';' (pyStrip line) with
    | p0 :: p1 :: rest => parseFields p0 p1 rest
    | _ => none

/-- `parse_tasks` of `src/core.py`: parse every raw line, dropping the
malformed ones, in order. -/
def parse_tasks (tasks : List Str) : List Task :=
  tasks.filterMap parseLine?

example : parse_tasks [str "1;Buy milk;None;suspended;None"] =
    [⟨1, str "Buy milk", [], some (str "suspended"), none⟩] := by decide

example : parse_tasks [str "2;Réviser;Urgent"] =
    [⟨2, str "Réviser", [str "Urgent"], some (str "suspended"), none⟩] := by decide

example : parse_tasks [str "x;bad", str "", str "3;ok;a, b;started;7"] =
    [⟨3, str "ok", [str "a", str "b"], some (str "started"), some 7⟩] := by decide

/-! ## Locating a record (the `for ... if tid == task_id ... break` loops) -/

/-- Split a store at the first record carrying the given id, as the
mutation loops of `src/core.py` do; `none` when no record matches. -/
def splitFirst : List Task → Int → Option (List Task × Task × List Task)
  | [], _ => none
  | t :: rest, tid =>
    if t.tid = tid then some ([], t, rest)
    else
      match splitFirst rest tid with
      | some (b, u, a) => some (t :: b, u, a)
      | none => none

/-! ## `modify` (`src/core.py`, lines 162-233) -/

/-- The valid status values. -/
def validStatuses : List Str :=
  [str "started", str "suspended", str "completed", str "cancelled"]

/-- The status chain of `modify` exactly as written in the source:
when a new status is given, the first branch only prints a warning if it
is invalid and the status is left alone (valid values included); the
`elif` dependency check can only run when `new_status` is `None` — its
guard is then false, so the final `else` stores `None` in the slot. -/
def modifyState (parsed : List Task) (t : Task) (new_status : Option Str) : Option Str :=
  if new_status ≠ none then
    t.status
  else if (new_status = some (str "started") ∨ new_status = some (str "completed"))
      ∧ t.dep ≠ none then
    match t.dep with
    | some d =>
      match parsed.find? (fun p => p.tid = d) with
      | some p => if p.status ≠ some (str "completed") then t.status else new_status
      | none => new_status
    | none => new_status
  else new_status

/-- The record update performed by the `modify` loop body. -/
def modifyTask (parsed : List Task) (t : Task) (nd ns : Option Str) : Task :=
  { t with
    desc := match nd with | some d => d | none => t.desc
    status := modifyState parsed t ns }

/-- `modify`: convert the id (`none` models `ValueError` → `(False, [], None)`),
then update the first matching record. -/
def modify (tasks : List Str) (task_id : Str) (nd ns : Option Str) :
    Bool × List Task × Option Task :=
  match pyInt? task_id with
  | none => (false, [], none)
  | some tid =>
    match splitFirst (parse_tasks tasks) tid with
    | none => (false, parse_tasks tasks, none)
    | some (b, t, a) =>
      (true, b ++ (modifyTask (parse_tasks tasks) t nd ns :: a), some t)

/-! ## `rm` (`src/core.py`, lines 235-283) -/

/-- `rm`: filter out every record with the given id; `old_task` is the
last matching record (the loop overwrites it at each match). -/
def rm (tasks : List Str) (task_id : Str) : Bool × List Task × Option Task :=
  match pyInt? task_id with
  | none => (false, parse_tasks tasks, none)
  | some tid =>
    (decide (((parse_tasks tasks).filter (fun t => t.tid ≠ tid)).length <
        (parse_tasks tasks).length),
     (parse_tasks tasks).filter (fun t => t.tid ≠ tid),
     if ((parse_tasks tasks).filter (fun t => t.tid ≠ tid)).length <
        (parse_tasks tasks).length then
       ((parse_tasks tasks).filter (fun t => t.tid = tid)).getLast?
     else none)

/-! ## `add` (`src/core.py`, lines 69-159) -/

/-- Python `max(task[0] for task in parsed_tasks)` (store non-empty). -/
def maxIds : List Task → Int
  | [] => 0
  | t :: ts => ts.foldl (fun m u => max m u.tid) t.tid

/-- The id assigned by `add`: `max + 1` on a non-empty store, else 1. -/
def newId (parsed : List Task) : Int :=
  if parsed ≠ [] then maxIds parsed + 1 else 1

/-- `labels` normalization of `add` (`None` → empty list). -/
def labelsList (labels : Option (List Str)) : List Str :=
  match labels with | none => [] | some l => l

/-- `",".join(labels_list) if labels_list else "None"`. -/
def labelsStr (ls : List Str) : Str :=
  if ls ≠ [] then pyJoin (str ",") ls else str "None"

/-- Status validation of `add`: invalid values fall back to `suspended`. -/
def checkStatus (status : Str) : Str :=
  if status ∉ validStatuses then str "suspended" else status

/-- Parent-status lookup of `add` (lines 139-143): first record with
the chosen id; the `suspended` default is only reachable when the id is
absent from the store. -/
def parentStatus (parsed : List Task) (chosen : Int) : Option Str :=
  match parsed.find? (fun p => p.tid = chosen) with
  | some p => p.status
  | none => some (str "suspended")

/-- Dependency gate of `add` (lines 137-147): a requested `started` or
`completed` status is downgraded to `suspended` when the chosen parent's
status is not `completed`. -/
def depDowngrade (parsed : List Task) (status : Str) (chosen : Int) : Str :=
  if status = str "started" ∨ status = str "completed" then
    if parentStatus parsed chosen ≠ some (str "completed") then str "suspended" else status
  else status

/-- The dependency prompt of `add`.  The interactive loops only finish
with a validated answer: `wantDep` is the operator's O/N reply, `chosen`
the selected id; the selection loop only terminates on an id of the
store, so an unvalidated `chosen` keeps the no-dependency outcome. -/
def addCore (parsed : List Task) (status : Str) (wantDep : Bool) (chosen : Int) :
    Option Int × Str :=
  if parsed ≠ [] ∧ wantDep = true ∧ chosen ∈ parsed.map (fun t => t.tid) then
    (some chosen, depDowngrade parsed status chosen)
  else (none, status)

/-- The five-field line layout shared by every f-string writing a task
(`core.py` line 158 and the rewrite loops of `commands.py`). -/
def taskLine (T p1 L S D : Str) : Str :=
  T ++ str ";" ++ p1 ++ str ";" ++ L ++ str ";" ++ S ++ str ";" ++ D ++ str "\n"

/-- `f"{new_id};{details};{labels_str};{status};{id_dep}\n"` (line 158);
Python prints `None` for an absent dependency. -/
def mkAddLine (nid : Int) (details : Str) (lstr : Str) (status : Str)
    (id_dep : Option Int) : Str :=
  taskLine (pyStrOfInt nid) details lstr status
    (match id_dep with | some d => pyStrOfInt d | none => str "None")

/-- `add`: returns `(new_id, details, labels_list, task_line)`.  The
`KeyboardInterrupt` path (whole create abandoned) is not modelled: no
claim quantifies over it. -/
def add (tasks : List Str) (details : Str) (labels : Option (List Str)) (status : Str)
    (wantDep : Bool) (chosen : Int) : Int × Str × List Str × Str :=
  let parsed := parse_tasks tasks
  let nid := newId parsed
  let ll := labelsList labels
  let st := checkStatus status
  let r := addCore parsed st wantDep chosen
  (nid, details, ll, mkAddLine nid details (labelsStr ll) r.2 r.1)

/-! ## `add_options`, `rmLabel`, `clearLabel`, `rmDep` (`src/core.py`) -/

/-- Label merge of `add_options`: append each new label not already
present, first-seen order preserved. -/
def mergeLabels (lab : List Str) (ls : List Str) : List Str :=
  ls.foldl (fun acc l => if l ∈ acc then acc else acc ++ [l]) lab

/-- `add_options`: merge labels and/or set the dependency; `overwrite`
is the operator's validated answer to the overwrite prompt (only asked
when a dependency already exists). -/
def add_options (tasks : List Str) (task_id : Str) (labels : Option (List Str))
    (id_dep : Option Int) (overwrite : Bool) : Bool × List Task × Option Task :=
  match pyInt? task_id with
  | none => (false, [], none)
  | some tid =>
    match splitFirst (parse_tasks tasks) tid with
    | none => (false, parse_tasks tasks, none)
    | some (b, t, a) =>
      let new_lab := match labels with
        | some ls => mergeLabels t.labels ls
        | none => t.labels
      let dep' := match id_dep with
        | some nd =>
          match t.dep with
          | some _ => if overwrite then some nd else t.dep
          | none => some nd
        | none => t.dep
      (true, b ++ ({ t with labels := new_lab, dep := dep' } :: a), some t)

/-- `rmLabel`: `ans` is the outcome of the index prompt — `some n` for a
validated index, `none` for an interrupt (the only other way the prompt
loop ends), which returns `(False, parsed_tasks, None)`.  When the id
matches no record the source returns the unassigned `old_task`, raising
`NameError`: modelled by the outer `none`. -/
def rmLabel (tasks : List Str) (task_id : Str) (ans : Option Nat) :
    Option (Bool × List Task × Option Task) :=
  match pyInt? task_id with
  | none => some (false, [], none)
  | some tid =>
    match splitFirst (parse_tasks tasks) tid with
    | none => none
    | some (b, t, a) =>
      if t.labels ≠ [] then
        match ans with
        | some n =>
          if n < t.labels.length then
            some (true, b ++ ({ t with labels := t.labels.eraseIdx n } :: a), some t)
          else some (false, parse_tasks tasks, none)
        | none => some (false, parse_tasks tasks, none)
      else some (true, b ++ (t :: a), some t)

/-- `clearLabel`: empty the label list.  When the id matches no record
the source returns the unassigned `old_task` (`NameError`): `none`. -/
def clearLabel (tasks : List Str) (task_id : Str) :
    Option (Bool × List Task × Option Task) :=
  match pyInt? task_id with
  | none => some (false, [], none)
  | some tid =>
    match splitFirst (parse_tasks tasks) tid with
    | none => none
    | some (b, t, a) => some (true, b ++ ({ t with labels := [] } :: a), some t)

/-- `rmDep`: clear the dependency.  When the id matches no record the
source returns the unassigned `old_task` (`NameError`): `none`. -/
def rmDep (tasks : List Str) (task_id : Str) :
    Option (Bool × List Task × Option Task) :=
  match pyInt? task_id with
  | none => some (false, [], none)
  | some tid =>
    match splitFirst (parse_tasks tasks) tid with
    | none => none
    | some (b, t, a) => some (true, b ++ ({ t with dep := none } :: a), some t)

/-! ## Serialization and the `modify` command (`src/commands.py`) -/

/-- The status slot as printed by the f-strings of `commands.py`:
Python's `str(None)` is the text `None`. -/
def statusStrOf (st : Option Str) : Str :=
  match st with
  | some s => s
  | none => str "None"

/-- `dep = dep if dep else "None"` in `commands.py`: a falsy dependency
(absent or 0) prints as `None`. -/
def depStrOf (dep : Option Int) : Str :=
  match dep with
  | some d => if d ≠ 0 then pyStrOfInt d else str "None"
  | none => str "None"

/-- One rewritten line of the task file
(`f"{tid};{desc};{labels_str};{status};{dep}\n"` in `commands.py`):
labels are comma-joined or `None`. -/
def serializeTask (t : Task) : Str :=
  taskLine (pyStrOfInt t.tid) t.desc (labelsStr t.labels) (statusStrOf t.status)
    (depStrOf t.dep)

/-- Outcome of the `modify` command (`commands.py`, lines 59-112). -/
inductive ModifyOutcome
  | notFound
  | noChange
  | rewritten (lines : List Str)
deriving DecidableEq, Repr

/-- The `modify` command: on success, look up the updated record; when
it equals the prior snapshot report "no change" and do not rewrite,
otherwise rewrite the whole file with the serialized updated store. -/
def commands_modify (tasks : List Str) (task_id : Str) (nd ns : Option Str) :
    ModifyOutcome :=
  let r := modify tasks task_id nd ns
  if r.1 then
    match r.2.2 with
    | some old =>
      match r.2.1.find? (fun t => t.tid = old.tid) with
      | some nt =>
        if nt = old then .noChange else .rewritten (r.2.1.map serializeTask)
      | none => .rewritten (r.2.1.map serializeTask)
    | none => .rewritten (r.2.1.map serializeTask)
  else .notFound

/-! ## The legacy module (`codes/core.py`) -/

/-- A legacy three-field record (`codes/core.py`). -/
structure Task3 where
  tid : Int
  desc : Str
  labels : List Str
deriving DecidableEq, Repr

/-- One line under the legacy parser (`codes/core.py`, `parse_tasks`). -/
def parseLine3? (line : Str) : Option Task3 :=
  if pyStrip line = [] then none
  else
    match pySplit ';' (pyStrip line) with
    | p0 :: p1 :: rest =>
      match pyInt? p0 with
      | none => none
      | some tid =>
        let labels := match rest with
          | f2 :: _ => labelsOfField f2
          | [] => []
        some ⟨tid, p1, labels⟩
    | _ => none

/-- `parse_tasks` of `codes/core.py`. -/
def parse_tasks3 (tasks : List Str) : List Task3 :=
  tasks.filterMap parseLine3?

/-- `rm` of `codes/core.py` (lines 148-194) for a numeric id.  The
source re-initializes `filtered_tasks = []` INSIDE the loop, so after
the loop it holds at most the last record; on an empty store, and
whenever `old_task` is read unassigned, Python raises `NameError` —
both modelled by `none`. -/
def codes_rm (tasks : List Str) (tid : Int) : Option (Bool × List Task3 × Option Task3) :=
  let parsed := parse_tasks3 tasks
  let st := parsed.foldl
    (fun (acc : Option (List Task3) × Option Task3) t =>
      (some (if t.tid ≠ tid then [t] else []),
       if t.tid = tid then some t else acc.2))
    (none, none)
  match st.1 with
  | none => none
  | some filtered =>
    if filtered.length < parsed.length then
      match st.2 with
      | none => none
      | some o => some (true, filtered, some o)
    else some (false, filtered, none)

/-- The ids of a store, in storage order. -/
def storeIds (l : List Task) : List Int := l.map (fun t => t.tid)

example : modify [str "1;a;None;suspended;None"] (str "1") none (some (str "completed")) =
    (true, [⟨1, str "a", [], some (str "suspended"), none⟩],
      some ⟨1, str "a", [], some (str "suspended"), none⟩) := by decide

example : commands_modify [str "1;Buy milk;None;suspended;None"] (str "1")
    (some (str "Buy milk")) none = .rewritten [str "1;Buy milk;None;None;None\n"] := by decide

example : codes_rm [str "1;a;None", str "2;b;None", str "3;c;None"] 1 =
    some (true, [⟨3, str "c", []⟩], some ⟨1, str "a", []⟩) := by decide

example : codes_rm [str "1;a;None", str "2;b;None"] 3 = none := by decide

example : (add [str "1;a;None;completed;None"] (str "c") none (str "started") true 1).2.2.2 =
    str "2;c;None;started;1\n" := by decide

example : (add [str "1;a;None;suspended;None"] (str "c") none (str "started") true 1).2.2.2 =
    str "2;c;None;suspended;1\n" := by decide

/-! ## Lemmas about the modelled Python string primitives -/

lemma isDigit_ne {c d : Char} (h : c.isDigit = true) (hd : d.isDigit = false) : c ≠ d := by
  intro e
  rw [e] at h
  rw [h] at hd
  exact Bool.noConfusion hd

lemma not_pySpace_of_isDigit {c : Char} (h : c.isDigit = true) : isPySpace c = false := by
  have h1 : c ≠ ' ' := isDigit_ne h (by decide)
  have h2 : c ≠ '\t' := isDigit_ne h (by decide)
  have h3 : c ≠ '\n' := isDigit_ne h (by decide)
  have h4 : c ≠ '\r' := isDigit_ne h (by decide)
  have h5 : c ≠ Char.ofNat 11 := isDigit_ne h (by decide)
  have h6 : c ≠ Char.ofNat 12 := isDigit_ne h (by decide)
  simp [isPySpace, h1, h2, h3, h4, h5, h6]

lemma digitChar_isDigit {r : Nat} (h : r < 10) : (digitChar r).isDigit = true := by
  interval_cases r <;> decide

lemma digitChar_toNat {r : Nat} (h : r < 10) : (digitChar r).toNat = 48 + r := by
  interval_cases r <;> decide

lemma digitsVal_append_digit (xs : Str) (c : Char) :
    digitsVal (xs ++ [c]) = 10 * digitsVal xs + (c.toNat - 48) := by
  unfold digitsVal
  rw [List.foldl_append]
  rfl

lemma natToDigsFuel_succ (fuel n : Nat) :
    natToDigsFuel (fuel + 1) n =
      if n = 0 then [] else natToDigsFuel fuel (n / 10) ++ [digitChar (n % 10)] := rfl

lemma natToDigsFuel_all_digits : ∀ fuel n : Nat, ∀ c ∈ natToDigsFuel fuel n, c.isDigit = true := by
  intro fuel
  induction fuel with
  | zero => intro n c hc; simp [natToDigsFuel] at hc
  | succ fuel ih =>
    intro n c hc
    unfold natToDigsFuel at hc
    by_cases hn : n = 0
    · rw [if_pos hn] at hc; simp at hc
    · rw [if_neg hn] at hc
      rcases List.mem_append.mp hc with h | h
      · exact ih _ c h
      · rcases List.mem_singleton.mp h with rfl
        exact digitChar_isDigit (Nat.mod_lt _ (by norm_num))

lemma natToDigsFuel_ne_nil {fuel n : Nat} (h0 : 0 < n) (hle : n ≤ fuel) :
    natToDigsFuel fuel n ≠ [] := by
  cases fuel with
  | zero => omega
  | succ fuel =>
    unfold natToDigsFuel
    rw [if_neg (by omega)]
    intro h
    rcases List.append_eq_nil.mp h with ⟨-, h2⟩
    exact List.cons_ne_nil _ _ h2

lemma digitsVal_natToDigsFuel : ∀ fuel n : Nat, n ≤ fuel → digitsVal (natToDigsFuel fuel n) = n := by
  intro fuel
  induction fuel with
  | zero => intro n h; interval_cases n; rfl
  | succ fuel ih =>
    intro n h
    unfold natToDigsFuel
    by_cases hn : n = 0
    · rw [if_pos hn, hn]; rfl
    · rw [if_neg hn, digitsVal_append_digit, ih (n / 10) (by omega),
        digitChar_toNat (Nat.mod_lt _ (by norm_num))]
      omega

lemma digitsU_of_all_digits : ∀ l : Str, l ≠ [] → (∀ c ∈ l, c.isDigit = true) → digitsU l = true := by
  intro l
  induction l with
  | nil => intro h; exact absurd rfl h
  | cons c rest ih =>
    intro _ hall
    cases rest with
    | nil => exact hall c (List.mem_singleton.mpr rfl)
    | cons c2 rest2 =>
      have hc := hall c (List.mem_cons_self _ _)
      have hc2 := hall c2 (List.mem_cons.mpr (Or.inr (List.mem_cons_self _ _)))
      unfold digitsU
      rw [if_neg (isDigit_ne hc2 (by decide)), hc,
        ih (List.cons_ne_nil _ _) (fun x hx => hall x (List.mem_cons.mpr (Or.inr hx)))]
      rfl

lemma filter_ne_underscore_of_digits {l : Str} (h : ∀ c ∈ l, c.isDigit = true) :
    l.filter (fun x => x ≠ '_') = l := by
  refine List.filter_eq_self.mpr (fun c hc => ?_)
  exact decide_eq_true (isDigit_ne (h c hc) (by decide))

lemma dropWhile_eq_self_of_forall {p : Char → Bool} :
    ∀ l : Str, (∀ c ∈ l, p c = false) → l.dropWhile p = l := by
  intro l h
  cases l with
  | nil => rfl
  | cons c rest =>
    rw [List.dropWhile_cons, if_neg (by simp [h c (List.mem_cons_self _ _)])]

lemma pyStrip_of_forall_not_space {l : Str} (h : ∀ c ∈ l, isPySpace c = false) : pyStrip l = l := by
  unfold pyStrip
  rw [dropWhile_eq_self_of_forall l h,
    dropWhile_eq_self_of_forall l.reverse (fun c hc => h c (List.mem_reverse.mp hc)),
    List.reverse_reverse]

/-- Stripping a serialized line: a line whose content starts and ends
with a non-whitespace character loses exactly its final newline. -/
lemma pyStrip_wrap {c d : Char} (m : Str) (hc : isPySpace c = false) (hd : isPySpace d = false) :
    pyStrip ((c :: (m ++ [d])) ++ ['\n']) = c :: (m ++ [d]) := by
  unfold pyStrip
  rw [List.cons_append, List.dropWhile_cons, if_neg (by simp [hc])]
  rw [show c :: ((m ++ [d]) ++ ['\n']) = (c :: (m ++ [d])) ++ ['\n'] from rfl]
  rw [List.reverse_append (c :: (m ++ [d])) ['\n']]
  rw [show (['\n'] : Str).reverse = ['\n'] from rfl]
  rw [List.cons_append, List.nil_append, List.dropWhile_cons, if_pos (by decide)]
  rw [show c :: (m ++ [d]) = (c :: m) ++ [d] from by simp]
  rw [List.reverse_append (c :: m) [d]]
  rw [show ([d] : Str).reverse = [d] from rfl]
  rw [List.cons_append, List.nil_append, List.dropWhile_cons, if_neg (by simp [hd])]
  rw [show d :: (c :: m).reverse = ([d] : Str).reverse ++ (c :: m).reverse from rfl]
  rw [← List.reverse_append (c :: m) [d], List.reverse_reverse]

lemma pySplit_cons_eq (sep c : Char) (rest : Str) :
    pySplit sep (c :: rest) =
      if c = sep then [] :: pySplit sep rest
      else
        match pySplit sep rest with
        | s :: ss => (c :: s) :: ss
        | [] => [[c]] := rfl

lemma pyJoin_cons₂ (sep x y : Str) (rest : List Str) :
    pyJoin sep (x :: y :: rest) = x ++ sep ++ pyJoin sep (y :: rest) := rfl

lemma pySplit_of_not_mem {sep : Char} : ∀ l : Str, sep ∉ l → pySplit sep l = [l] := by
  intro l
  induction l with
  | nil => intro; rfl
  | cons c rest ih =>
    intro h
    have hcs : c ≠ sep := fun e => h (List.mem_cons.mpr (Or.inl e.symm))
    rw [pySplit_cons_eq, if_neg hcs, ih (fun e => h (List.mem_cons.mpr (Or.inr e)))]

lemma pySplit_append_sep {sep : Char} :
    ∀ a b : Str, sep ∉ a → pySplit sep (a ++ sep :: b) = a :: pySplit sep b := by
  intro a
  induction a with
  | nil =>
    intro b _
    rw [List.nil_append, pySplit_cons_eq, if_pos rfl]
  | cons c a' ih =>
    intro b h
    have hcs : c ≠ sep := fun e => h (List.mem_cons.mpr (Or.inl e.symm))
    have ha' : sep ∉ a' := fun e => h (List.mem_cons.mpr (Or.inr e))
    rw [List.cons_append, pySplit_cons_eq, if_neg hcs, ih b ha']

lemma pyJoin_split {sep : Char} :
    ∀ ls : List Str, ls ≠ [] → (∀ l ∈ ls, sep ∉ l) →
      pySplit sep (pyJoin [sep] ls) = ls := by
  intro ls
  induction ls with
  | nil => intro h; exact absurd rfl h
  | cons x rest ih =>
    intro _ hall
    cases rest with
    | nil => exact pySplit_of_not_mem x (hall x (List.mem_cons_self _ _))
    | cons y rest2 =>
      have hx : sep ∉ x := hall x (List.mem_cons_self _ _)
      rw [pyJoin_cons₂, List.append_assoc, List.singleton_append,
        pySplit_append_sep x _ hx,
        ih (List.cons_ne_nil _ _) (fun l hl => hall l (List.mem_cons.mpr (Or.inr hl)))]

lemma mem_pyJoin {c : Char} {sep : Str} :
    ∀ ls : List Str, c ∈ pyJoin sep ls → c ∈ sep ∨ ∃ l ∈ ls, c ∈ l := by
  intro ls
  induction ls with
  | nil => intro h; simp [pyJoin] at h
  | cons x rest ih =>
    intro h
    cases rest with
    | nil =>
      exact Or.inr ⟨x, List.mem_cons_self _ _, h⟩
    | cons y rest2 =>
      rw [pyJoin_cons₂] at h
      rcases List.mem_append.mp h with h1 | h1
      · rcases List.mem_append.mp h1 with h2 | h2
        · exact Or.inr ⟨x, List.mem_cons_self _ _, h2⟩
        · exact Or.inl h2
      · rcases ih h1 with h2 | ⟨l, hl, hcl⟩
        · exact Or.inl h2
        · exact Or.inr ⟨l, List.mem_cons.mpr (Or.inr hl), hcl⟩

/-! ## Round-trip of the integer rendering -/

lemma pyStrOfNat_all_digits (n : Nat) : ∀ c ∈ pyStrOfNat n, c.isDigit = true := by
  unfold pyStrOfNat
  by_cases hn : n = 0
  · rw [if_pos hn]; intro c hc; rcases List.mem_singleton.mp hc with rfl; decide
  · rw [if_neg hn]; exact fun c hc => natToDigsFuel_all_digits n n c hc

lemma pyStrOfNat_ne_nil (n : Nat) : pyStrOfNat n ≠ [] := by
  unfold pyStrOfNat
  by_cases hn : n = 0
  · rw [if_pos hn]; exact List.cons_ne_nil _ _
  · rw [if_neg hn]; exact natToDigsFuel_ne_nil (Nat.pos_of_ne_zero hn) (le_refl n)

lemma digitsVal_pyStrOfNat (n : Nat) : digitsVal (pyStrOfNat n) = n := by
  unfold pyStrOfNat
  by_cases hn : n = 0
  · rw [if_pos hn, hn]; rfl
  · rw [if_neg hn]; exact digitsVal_natToDigsFuel n n (le_refl n)

lemma pyStrip_digits {l : Str} (h : ∀ c ∈ l, c.isDigit = true) : pyStrip l = l :=
  pyStrip_of_forall_not_space (fun c hc => not_pySpace_of_isDigit (h c hc))

lemma pyIsDigit_pyStrOfNat (n : Nat) : pyIsDigit (pyStrOfNat n) = true := by
  unfold pyIsDigit
  rw [List.all_eq_true.mpr (pyStrOfNat_all_digits n)]
  cases hl : pyStrOfNat n with
  | nil => exact absurd hl (pyStrOfNat_ne_nil n)
  | cons c rest => rfl

lemma pyIntCore_cons (c : Char) (rest : Str) :
    pyIntCore (c :: rest) =
      if c = '+' then
        if digitsU rest then some ((digitsVal (rest.filter (fun x => x ≠ '_')) : Nat) : Int)
        else none
      else if c = '-' then
        if digitsU rest then some (-((digitsVal (rest.filter (fun x => x ≠ '_')) : Nat) : Int))
        else none
      else
        if digitsU (c :: rest) then
          some ((digitsVal ((c :: rest).filter (fun x => x ≠ '_')) : Nat) : Int)
        else none := rfl

lemma pyInt?_digits {l : Str} (hne : l ≠ []) (h : ∀ c ∈ l, c.isDigit = true) :
    pyInt? l = some ((digitsVal l : Nat) : Int) := by
  unfold pyInt?
  rw [pyStrip_digits h]
  cases l with
  | nil => exact absurd rfl hne
  | cons c rest =>
    have hc := h c (List.mem_cons_self _ _)
    rw [pyIntCore_cons, if_neg (isDigit_ne hc (by decide)), if_neg (isDigit_ne hc (by decide)),
      if_pos (digitsU_of_all_digits _ (List.cons_ne_nil _ _) h),
      filter_ne_underscore_of_digits h]

lemma pyInt?_pyStrOfNat (n : Nat) : pyInt? (pyStrOfNat n) = some (n : Int) := by
  rw [pyInt?_digits (pyStrOfNat_ne_nil n) (pyStrOfNat_all_digits n), digitsVal_pyStrOfNat]

lemma pyInt?_pyStrOfInt (i : Int) : pyInt? (pyStrOfInt i) = some i := by
  unfold pyStrOfInt
  by_cases hi : i < 0
  · rw [if_pos hi]
    unfold pyInt?
    have hall : ∀ c ∈ '-' :: pyStrOfNat i.natAbs, isPySpace c = false := by
      intro c hc
      rcases List.mem_cons.mp hc with rfl | hc
      · decide
      · exact not_pySpace_of_isDigit (pyStrOfNat_all_digits _ c hc)
    rw [pyStrip_of_forall_not_space hall]
    rw [pyIntCore_cons, if_neg (by decide), if_pos rfl,
      if_pos (digitsU_of_all_digits _ (pyStrOfNat_ne_nil _) (pyStrOfNat_all_digits _)),
      filter_ne_underscore_of_digits (pyStrOfNat_all_digits _), digitsVal_pyStrOfNat]
    congr 1
    omega
  · rw [if_neg hi, pyInt?_pyStrOfNat]
    congr 1
    omega

/-- The rendered integer contains no separator, no comma, no newline. -/
lemma pyStrOfInt_not_mem {i : Int} {d : Char} (hd : d.isDigit = false) (hm : d ≠ '-') :
    d ∉ pyStrOfInt i := by
  intro hmem
  unfold pyStrOfInt at hmem
  by_cases hi : i < 0
  · rw [if_pos hi] at hmem
    rcases List.mem_cons.mp hmem with rfl | hc
    · exact hm rfl
    · exact isDigit_ne (pyStrOfNat_all_digits _ d hc) hd rfl
  · rw [if_neg hi] at hmem
    exact isDigit_ne (pyStrOfNat_all_digits _ d hmem) hd rfl

/-! ## Lemmas about `maxIds` and `splitFirst` -/

lemma foldl_max_init (l : List Task) : ∀ acc : Int, acc ≤ l.foldl (fun m u => max m u.tid) acc := by
  induction l with
  | nil => intro acc; exact le_refl acc
  | cons t l ih =>
    intro acc
    exact le_trans (le_max_left acc t.tid) (ih (max acc t.tid))

lemma foldl_max_mem {l : List Task} {t : Task} (h : t ∈ l) :
    ∀ acc : Int, t.tid ≤ l.foldl (fun m u => max m u.tid) acc := by
  induction l with
  | nil => exact absurd h (List.not_mem_nil t)
  | cons u l ih =>
    intro acc
    rcases List.mem_cons.mp h with rfl | hmem
    · exact le_trans (le_max_right acc t.tid) (foldl_max_init l _)
    · exact ih hmem _

lemma le_maxIds {l : List Task} {t : Task} (h : t ∈ l) : t.tid ≤ maxIds l := by
  cases l with
  | nil => exact absurd h (List.not_mem_nil t)
  | cons u l =>
    rcases List.mem_cons.mp h with rfl | hmem
    · exact foldl_max_init l t.tid
    · exact foldl_max_mem hmem u.tid

lemma splitFirst_eq {tid : Int} :
    ∀ {l : List Task} {b : List Task} {t : Task} {a : List Task},
      splitFirst l tid = some (b, t, a) → l = b ++ t :: a ∧ t.tid = tid := by
  intro l
  induction l with
  | nil => intro b t a h; exact absurd h (by simp [splitFirst])
  | cons u l ih =>
    intro b t a h
    unfold splitFirst at h
    by_cases hu : u.tid = tid
    · rw [if_pos hu] at h
      injection h with h
      injection h with h1 h
      injection h with h2 h3
      subst h1; subst h2; subst h3
      exact ⟨rfl, hu⟩
    · rw [if_neg hu] at h
      cases hs : splitFirst l tid with
      | none => rw [hs] at h; exact absurd h (by simp)
      | some p =>
        obtain ⟨b', t', a'⟩ := p
        rw [hs] at h
        injection h with h
        injection h with h1 h
        injection h with h2 h3
        subst h1; subst h2; subst h3
        obtain ⟨he, ht⟩ := ih hs
        exact ⟨by rw [List.cons_append, ← he], ht⟩

/-! ## Parsing a serialized line -/

lemma parse_tasks_cons (l : Str) (ls : List Str) :
    parse_tasks (l :: ls) =
      match parseLine? l with
      | none => parse_tasks ls
      | some t => t :: parse_tasks ls := by
  unfold parse_tasks
  rw [List.filterMap_cons]
  cases parseLine? l <;> rfl

lemma parse_tasks_append (A B : List Str) :
    parse_tasks (A ++ B) = parse_tasks A ++ parse_tasks B :=
  List.filterMap_append A B parseLine?

lemma parse_tasks_skip {l : Str} (h : parseLine? l = none) (ls : List Str) :
    parse_tasks (l :: ls) = parse_tasks ls := by
  rw [parse_tasks_cons, h]

lemma parse_tasks_keep {l : Str} {t : Task} (h : parseLine? l = some t) (ls : List Str) :
    parse_tasks (l :: ls) = t :: parse_tasks ls := by
  rw [parse_tasks_cons, h]

lemma pyStrOfInt_head_decomp (i : Int) :
    ∃ c T', pyStrOfInt i = c :: T' ∧ isPySpace c = false := by
  unfold pyStrOfInt
  by_cases hi : i < 0
  · rw [if_pos hi]
    exact ⟨'-', pyStrOfNat i.natAbs, rfl, by decide⟩
  · rw [if_neg hi]
    cases hl : pyStrOfNat i.natAbs with
    | nil => exact absurd hl (pyStrOfNat_ne_nil _)
    | cons c T' =>
      refine ⟨c, T', rfl, not_pySpace_of_isDigit (pyStrOfNat_all_digits i.natAbs c ?_)⟩
      rw [hl]
      exact List.mem_cons_self _ _

lemma pyStrOfNat_concat_decomp (n : Nat) :
    ∃ D' d, pyStrOfNat n = D' ++ [d] ∧ isPySpace d = false := by
  unfold pyStrOfNat
  by_cases hn : n = 0
  · rw [if_pos hn]
    exact ⟨[], '0', rfl, by decide⟩
  · rw [if_neg hn]
    unfold natToDigs
    cases n with
    | zero => exact absurd rfl hn
    | succ m =>
      refine ⟨natToDigsFuel m ((m + 1) / 10), digitChar ((m + 1) % 10), ?_, ?_⟩
      · show natToDigsFuel (m + 1) (m + 1) = _
        rw [natToDigsFuel_succ, if_neg hn]
      · exact not_pySpace_of_isDigit (digitChar_isDigit (Nat.mod_lt _ (by norm_num)))

lemma pyStrOfInt_concat_decomp (i : Int) :
    ∃ D' d, pyStrOfInt i = D' ++ [d] ∧ isPySpace d = false := by
  unfold pyStrOfInt
  obtain ⟨D', d, he, hd⟩ := pyStrOfNat_concat_decomp i.natAbs
  by_cases hi : i < 0
  · rw [if_pos hi, he]
    exact ⟨'-' :: D', d, rfl, hd⟩
  · rw [if_neg hi, he]
    exact ⟨D', d, rfl, hd⟩

/-- Stripping a full serialized line removes exactly the final newline,
provided the id field starts and the dependency field ends with a
non-whitespace character. -/
lemma pyStrip_taskLine {c d : Char} (T' p1 L S D' : Str)
    (hc : isPySpace c = false) (hd : isPySpace d = false) :
    pyStrip (taskLine (c :: T') p1 L S (D' ++ [d])) =
      (c :: T') ++ str ";" ++ p1 ++ str ";" ++ L ++ str ";" ++ S ++ str ";" ++ (D' ++ [d]) := by
  have key := pyStrip_wrap
    (T' ++ ';' :: (p1 ++ ';' :: (L ++ ';' :: (S ++ ';' :: D')))) hc hd
  have h1 : taskLine (c :: T') p1 L S (D' ++ [d]) =
      (c :: ((T' ++ ';' :: (p1 ++ ';' :: (L ++ ';' :: (S ++ ';' :: D')))) ++ [d])) ++ ['\n'] := by
    simp [taskLine, str]
  have h2 : (c :: T') ++ str ";" ++ p1 ++ str ";" ++ L ++ str ";" ++ S ++ str ";" ++ (D' ++ [d]) =
      c :: ((T' ++ ';' :: (p1 ++ ';' :: (L ++ ';' :: (S ++ ';' :: D')))) ++ [d]) := by
    simp [str]
  rw [h1, h2]
  exact key

/-- Parsing a serialized five-field line, given that no field contains a
separator and that the outer strip only removes the newline. -/
lemma parseLine?_taskLine {T p1 L S D : Str} {tid : Int}
    (hstrip : pyStrip (taskLine T p1 L S D) =
      T ++ str ";" ++ p1 ++ str ";" ++ L ++ str ";" ++ S ++ str ";" ++ D)
    (hT : pyInt? T = some tid)
    (hsT : ';' ∉ T) (hs1 : ';' ∉ p1) (hsL : ';' ∉ L) (hsS : ';' ∉ S) (hsD : ';' ∉ D) :
    parseLine? (taskLine T p1 L S D) =
      some ⟨tid, p1, labelsOfField L, some (statusOfField S), depOfField D⟩ := by
  have hC : T ++ str ";" ++ p1 ++ str ";" ++ L ++ str ";" ++ S ++ str ";" ++ D =
      T ++ ';' :: (p1 ++ ';' :: (L ++ ';' :: (S ++ ';' :: D))) := by
    simp [str]
  have hsplit : pySplit ';' (T ++ ';' :: (p1 ++ ';' :: (L ++ ';' :: (S ++ ';' :: D)))) =
      [T, p1, L, S, D] := by
    rw [pySplit_append_sep T _ hsT, pySplit_append_sep p1 _ hs1,
      pySplit_append_sep L _ hsL, pySplit_append_sep S _ hsS, pySplit_of_not_mem D hsD]
  have hne : T ++ ';' :: (p1 ++ ';' :: (L ++ ';' :: (S ++ ';' :: D))) ≠ [] := by
    intro h
    rcases List.append_eq_nil.mp h with ⟨-, h2⟩
    exact List.cons_ne_nil _ _ h2
  unfold parseLine?
  rw [hstrip, hC, if_neg hne, hsplit]
  show parseFields T p1 [L, S, D] = _
  unfold parseFields
  rw [hT]

/-! ## Round-trip of the individual fields -/

lemma map_pyStrip_id : ∀ ls : List Str, (∀ l ∈ ls, pyStrip l = l) → ls.map pyStrip = ls := by
  intro ls
  induction ls with
  | nil => intro; rfl
  | cons x rest ih =>
    intro h
    rw [List.map_cons, h x (List.mem_cons_self _ _),
      ih (fun l hl => h l (List.mem_cons.mpr (Or.inr hl)))]

lemma labelsOfField_labelsStr {ls : List Str}
    (hN : ls ≠ [str "None"])
    (hcl : ∀ l ∈ ls, l ≠ [] ∧ pyStrip l = l ∧ ',' ∉ l) :
    labelsOfField (labelsStr ls) = ls := by
  by_cases hnil : ls = []
  · subst hnil
    rfl
  · unfold labelsStr
    rw [if_pos hnil]
    have hjs : pySplit ',' (pyJoin (str ",") ls) = ls :=
      pyJoin_split ls hnil (fun l hl => (hcl l hl).2.2)
    have hne : pyJoin (str ",") ls ≠ str "None" := by
      intro he
      have : pySplit ',' (pyJoin (str ",") ls) = [str "None"] := by
        rw [he]
        exact pySplit_of_not_mem _ (by decide)
      rw [hjs] at this
      exact hN this
    unfold labelsOfField
    rw [if_pos hne, hjs, map_pyStrip_id ls (fun l hl => (hcl l hl).2.1)]
    exact List.filter_eq_self.mpr (fun l hl => decide_eq_true (hcl l hl).1)

lemma statusOfField_valid {s : Str} (h : s ∈ validStatuses) : statusOfField s = s := by
  simp only [validStatuses, List.mem_cons, List.not_mem_nil, or_false] at h
  rcases h with rfl | rfl | rfl | rfl <;> decide

lemma not_semicolon_valid_status {s : Str} (h : s ∈ validStatuses) : ';' ∉ s := by
  simp only [validStatuses, List.mem_cons, List.not_mem_nil, or_false] at h
  rcases h with rfl | rfl | rfl | rfl <;> decide

lemma depStrOf_some (d : Int) :
    depStrOf (some d) = if d ≠ 0 then pyStrOfInt d else str "None" := rfl

lemma depOfField_pos {d : Int} (hd : 0 < d) : depOfField (pyStrOfInt d) = some d := by
  have hnn : ¬ d < 0 := by omega
  unfold depOfField pyStrOfInt
  rw [if_neg hnn, pyStrip_digits (pyStrOfNat_all_digits _), if_pos (pyIsDigit_pyStrOfNat _),
    pyInt?_pyStrOfNat]
  congr 1
  omega

lemma depOfField_depStrOf {dep : Option Int} (h : ∀ d, dep = some d → 0 < d) :
    depOfField (depStrOf dep) = dep := by
  cases dep with
  | none => decide
  | some d =>
    have hd : 0 < d := h d rfl
    rw [depStrOf_some, if_pos (by omega : d ≠ 0)]
    exact depOfField_pos hd

lemma not_semicolon_labelsStr {ls : List Str} (h : ∀ l ∈ ls, ';' ∉ l) :
    ';' ∉ labelsStr ls := by
  unfold labelsStr
  by_cases hnil : ls = []
  · rw [if_neg (by simp [hnil])]
    decide
  · rw [if_pos hnil]
    intro hmem
    rcases mem_pyJoin ls hmem with hsep | ⟨l, hl, hcl⟩
    · revert hsep; decide
    · exact h l hl hcl

lemma not_semicolon_pyStrOfInt (i : Int) : ';' ∉ pyStrOfInt i :=
  pyStrOfInt_not_mem (by decide) (by decide)

lemma not_semicolon_depStrOf (dep : Option Int) : ';' ∉ depStrOf dep := by
  cases dep with
  | none => decide
  | some d =>
    rw [depStrOf_some]
    by_cases hd : d ≠ 0
    · rw [if_pos hd]; exact not_semicolon_pyStrOfInt d
    · rw [if_neg hd]; decide

lemma depStrOf_concat_decomp (dep : Option Int) :
    ∃ D' d, depStrOf dep = D' ++ [d] ∧ isPySpace d = false := by
  cases dep with
  | none => exact ⟨str "Non", 'e', rfl, by decide⟩
  | some v =>
    rw [depStrOf_some]
    by_cases hv : v ≠ 0
    · rw [if_pos hv]; exact pyStrOfInt_concat_decomp v
    · rw [if_neg hv]; exact ⟨str "Non", 'e', rfl, by decide⟩

/-- The status actually written for a parsed record is never blank and
never contains a separator when it is one of the four valid values. -/
lemma serializeTask_parses {t : Task} {s : Str}
    (hid : 0 < t.tid)
    (hs : t.status = some s) (hsv : s ∈ validStatuses)
    (hdesc : ';' ∉ t.desc)
    (hlab : ∀ l ∈ t.labels, l ≠ [] ∧ pyStrip l = l ∧ ',' ∉ l ∧ ';' ∉ l)
    (hlabN : t.labels ≠ [str "None"])
    (hdep : ∀ d, t.dep = some d → 0 < d) :
    parseLine? (serializeTask t) = some t := by
  obtain ⟨c, T', hcT, hc⟩ := pyStrOfInt_head_decomp t.tid
  obtain ⟨D', d, hdD, hd⟩ := depStrOf_concat_decomp t.dep
  have hstrip : pyStrip (taskLine (pyStrOfInt t.tid) t.desc (labelsStr t.labels)
      (statusStrOf t.status) (depStrOf t.dep)) =
      pyStrOfInt t.tid ++ str ";" ++ t.desc ++ str ";" ++ labelsStr t.labels ++ str ";" ++
        statusStrOf t.status ++ str ";" ++ depStrOf t.dep := by
    rw [hcT, hdD]
    exact pyStrip_taskLine T' t.desc (labelsStr t.labels) (statusStrOf t.status) D' hc hd
  have hS : statusStrOf t.status = s := by rw [hs]; rfl
  have hres := parseLine?_taskLine hstrip (pyInt?_pyStrOfInt t.tid)
    (not_semicolon_pyStrOfInt t.tid) hdesc
    (not_semicolon_labelsStr (fun l hl => (hlab l hl).2.2.2))
    (by rw [hS]; exact not_semicolon_valid_status hsv)
    (not_semicolon_depStrOf t.dep)
  unfold serializeTask
  rw [hres, hS, statusOfField_valid hsv,
    labelsOfField_labelsStr hlabN (fun l hl => ⟨(hlab l hl).1, (hlab l hl).2.1, (hlab l hl).2.2.1⟩),
    depOfField_depStrOf hdep]
  obtain ⟨tid, desc, labels, status, dep⟩ := t
  simp only at hs
  rw [hs]

/-! ## The claims -/

/-- C1: the claim states that `Modify(id, newStatus=S)` with a valid `S`
applies the new status whenever the record has no dependency or a
completed dependency.  The code never applies it: with a record that has
no dependency and current status `suspended`, a requested valid status
`completed` leaves the stored status `suspended` (the status-assignment
branch of `modify` is unreachable because the `elif`/`else` chain only
runs when `new_status` is `None`). -/
theorem c1_modify_ignores_valid_status :
    modify [str "1;a;None;suspended;None"] (str "1") none (some (str "completed")) =
      (true, [⟨1, str "a", [], some (str "suspended"), none⟩],
        some ⟨1, str "a", [], some (str "suspended"), none⟩) := by decide

/-- C2 counterexample: a record whose description contains the field
separator `;` does not round-trip: serializing
`(1, "a;b", [], suspended, None)` and parsing the line back yields a
record with description `a`, labels `[b]` and status `None`. -/
theorem c2_roundtrip_counterexample :
    parse_tasks [serializeTask ⟨1, str "a;b", [], some (str "suspended"), none⟩] ≠
      [⟨1, str "a;b", [], some (str "suspended"), none⟩] := by decide

/-- C2 (amended): the round-trip `parse(serialize(record)) = record`
holds for every record with positive id, one of the four statuses, an
optional positive dependency, a description free of `;` and newlines,
and labels that are non-empty, strip-stable, free of `,`, `;` and
newlines, and not the single label `None`. -/
theorem c2_roundtrip_amended (t : Task) (s : Str)
    (hid : 0 < t.tid)
    (hs : t.status = some s) (hsv : s ∈ validStatuses)
    (hdesc : ';' ∉ t.desc ∧ '\n' ∉ t.desc)
    (hlab : ∀ l ∈ t.labels, l ≠ [] ∧ pyStrip l = l ∧ ',' ∉ l ∧ ';' ∉ l ∧ '\n' ∉ l)
    (hlabN : t.labels ≠ [str "None"])
    (hdep : ∀ d, t.dep = some d → 0 < d) :
    parse_tasks [serializeTask t] = [t] := by
  rw [parse_tasks_keep (serializeTask_parses hid hs hsv hdesc.1
    (fun l hl => ⟨(hlab l hl).1, (hlab l hl).2.1, (hlab l hl).2.2.1, (hlab l hl).2.2.2.1⟩)
    hlabN hdep) []]
  rfl

/-- C2 witness: a concrete valid record round-trips. -/
theorem c2_roundtrip_amended_witness :
    parse_tasks [serializeTask ⟨1, str "Buy milk", [str "urgent"], some (str "suspended"), some 1⟩] =
      [⟨1, str "Buy milk", [str "urgent"], some (str "suspended"), some 1⟩] :=
  c2_roundtrip_amended ⟨1, str "Buy milk", [str "urgent"], some (str "suspended"), some 1⟩
    (str "suspended") (by decide) rfl (by decide) (by decide) (by decide) (by decide)
    (fun d hd => by cases hd; decide)

/-- C3: the claim states that `Remove(id)` keeps exactly the records
with a different id.  The legacy `rm` of `codes/core.py` re-creates
`filtered_tasks` inside its loop: removing id 1 from a three-record
store keeps only the last record, silently dropping record 2, while the
`rm` of `src/core.py` keeps records 2 and 3 as the claim demands. -/
theorem c3_codes_rm_drops_records :
    codes_rm [str "1;a;None", str "2;b;None", str "3;c;None"] 1 =
      some (true, [⟨3, str "c", []⟩], some ⟨1, str "a", []⟩) ∧
    rm [str "1;a;None", str "2;b;None", str "3;c;None"] (str "1") =
      (true, [⟨2, str "b", [], some (str "suspended"), none⟩,
              ⟨3, str "c", [], some (str "suspended"), none⟩],
        some ⟨1, str "a", [], some (str "suspended"), none⟩) :=
  ⟨by decide, by decide⟩

/-- C4: the claim states that any mutation on a non-existent or
non-numeric id returns found=false without throwing and leaves the store
unchanged.  On an absent id the legacy `rm` of `codes/core.py` reads the
unassigned `old_task` (a `NameError`, modelled by `none`) after having
computed `found = True`; `clearLabel` (and likewise `rmDep`, `rmLabel`)
of `src/core.py` also reads an unassigned `old_task` when the id is
absent.  `modify` behaves as claimed on a non-numeric id. -/
theorem c4_absent_id_crashes :
    codes_rm [str "1;a;None", str "2;b;None"] 3 = none ∧
    clearLabel [str "1;a;None;suspended;None"] (str "3") = none ∧
    modify [str "1;a;None;suspended;None"] (str "abc") (some (str "x")) none =
      (false, [], none) :=
  ⟨by decide, by decide, by decide⟩

/-- C5: the claim states that a `Modify` changing neither description
nor status reports "no change" without rewriting the file.  Supplying
the record's current description (and no status) makes `modify` store
`None` in the status slot, so the updated record differs from the prior
snapshot and the command rewrites the file, with the stored status
turned into the literal `None`. -/
theorem c5_nochange_rewrites :
    commands_modify [str "1;Buy milk;None;suspended;None"] (str "1")
      (some (str "Buy milk")) none =
      ModifyOutcome.rewritten [str "1;Buy milk;None;None;None\n"] := by decide

lemma pySplit_ne_nil (sep : Char) (l : Str) : pySplit sep l ≠ [] := by
  cases l with
  | nil => exact List.cons_ne_nil _ _
  | cons c rest =>
    rw [pySplit_cons_eq]
    by_cases hc : c = sep
    · rw [if_pos hc]; exact List.cons_ne_nil _ _
    · rw [if_neg hc]
      cases hsp : pySplit sep rest with
      | nil => exact List.cons_ne_nil _ _
      | cons s ss => exact List.cons_ne_nil _ _

lemma depOfField_not_digit {f : Str} (h : pyIsDigit (pyStrip f) = false) :
    depOfField f = none := by
  unfold depOfField
  rw [h]
  rfl

/-- C6: parsing is total (it is a function of the raw lines) and treats
each line independently.  The three conjuncts: a line splitting into
fewer than two fields, or whose first field is not an integer, is
skipped and parsing continues with the remaining lines; a two-field
legacy line yields empty labels, status `suspended` and no dependency;
a fifth field that is not all digits yields no dependency. -/
theorem c6_parser_total :
    (∀ line ls, ((pySplit ';' (pyStrip line)).length < 2 ∨
        pyInt? ((pySplit ';' (pyStrip line)).headI) = none) →
      parse_tasks (line :: ls) = parse_tasks ls) ∧
    (∀ line ls (tidS desc : Str) (tid : Int),
      pySplit ';' (pyStrip line) = [tidS, desc] → pyInt? tidS = some tid →
      parse_tasks (line :: ls) =
        ⟨tid, desc, [], some (str "suspended"), none⟩ :: parse_tasks ls) ∧
    (∀ line ls (p0 p1 f2 f3 f4 : Str) (rest : List Str) (tid : Int),
      pySplit ';' (pyStrip line) = p0 :: p1 :: f2 :: f3 :: f4 :: rest →
      pyInt? p0 = some tid → pyIsDigit (pyStrip f4) = false →
      parse_tasks (line :: ls) =
        ⟨tid, p1, labelsOfField f2, some (statusOfField f3), none⟩ :: parse_tasks ls) := by
  refine ⟨?_, ?_, ?_⟩
  · intro line ls h
    refine parse_tasks_skip ?_ ls
    unfold parseLine?
    by_cases hb : pyStrip line = []
    · rw [if_pos hb]
    · rw [if_neg hb]
      cases hsp : pySplit ';' (pyStrip line) with
      | nil => exact absurd hsp (pySplit_ne_nil ';' _)
      | cons p0 tail =>
        cases tail with
        | nil => rfl
        | cons p1 rest =>
          rw [hsp] at h
          rcases h with hlen | hint
          · exact absurd hlen (by simp)
          · show parseFields p0 p1 rest = none
            unfold parseFields
            rw [show (p0 :: p1 :: rest).headI = p0 from rfl] at hint
            rw [hint]
  · intro line ls tidS desc tid hsplit hint
    refine parse_tasks_keep ?_ ls
    unfold parseLine?
    have hb : pyStrip line ≠ [] := by
      intro hb0
      rw [hb0] at hsplit
      have h2 : ([[]] : List Str) = [tidS, desc] := hsplit
      injection h2 with _ h3
      exact List.cons_ne_nil _ _ h3.symm
    rw [if_neg hb, hsplit]
    show parseFields tidS desc [] = _
    unfold parseFields
    rw [hint]
  · intro line ls p0 p1 f2 f3 f4 rest tid hsplit hint hdig
    refine parse_tasks_keep ?_ ls
    unfold parseLine?
    have hb : pyStrip line ≠ [] := by
      intro hb0
      rw [hb0] at hsplit
      have h2 : ([[]] : List Str) = p0 :: p1 :: f2 :: f3 :: f4 :: rest := hsplit
      injection h2 with _ h3
      exact List.cons_ne_nil _ _ h3.symm
    rw [if_neg hb, hsplit]
    show parseFields p0 p1 (f2 :: f3 :: f4 :: rest) = _
    unfold parseFields
    rw [hint]
    show some (⟨tid, p1, labelsOfField f2, some (statusOfField f3), depOfField f4⟩ : Task) = _
    rw [depOfField_not_digit hdig]

/-- C6 witness: the three conjuncts applied to concrete lines — a
non-integer id is skipped, a legacy two-field line gets the defaults,
and a non-digit fifth field gives no dependency. -/
theorem c6_parser_total_witness :
    parse_tasks [str "x;bad"] = [] ∧
    parse_tasks [str "7;hello"] = [⟨7, str "hello", [], some (str "suspended"), none⟩] ∧
    parse_tasks [str "1;d;None;started;x"] =
      [⟨1, str "d", [], some (str "started"), none⟩] := by
  refine ⟨?_, ?_, ?_⟩
  · exact c6_parser_total.1 (str "x;bad") [] (Or.inr (by decide))
  · exact c6_parser_total.2.1 (str "7;hello") [] (str "7") (str "hello") 7
      (by decide) (by decide)
  · exact c6_parser_total.2.2 (str "1;d;None;started;x") [] (str "1") (str "d")
      (str "None") (str "started") (str "x") [] 1 (by decide) (by decide) (by decide)

/-- C7: when `Create` is asked for status `started` or `completed` and
the operator selects a dependency on an existing record (`p` is the
first record with the chosen id), the emitted line carries the requested
status exactly when the dependency's status is `completed`, and
`suspended` otherwise. -/
theorem c7_create_dependency_gate (tasks : List Str) (details : Str)
    (labels : Option (List Str)) (status : Str) (chosen : Int) (p : Task)
    (hs : status = str "started" ∨ status = str "completed")
    (hfind : (parse_tasks tasks).find? (fun q => q.tid = chosen) = some p) :
    (add tasks details labels status true chosen).2.2.2 =
      mkAddLine (newId (parse_tasks tasks)) details (labelsStr (labelsList labels))
        (if p.status = some (str "completed") then status else str "suspended")
        (some chosen) := by
  have hmem : p ∈ parse_tasks tasks := List.mem_of_find?_eq_some hfind
  have hne : parse_tasks tasks ≠ [] := List.ne_nil_of_mem hmem
  have hpt : p.tid = chosen := by
    have hb := List.find?_some hfind
    simp at hb
    exact hb
  have hchos : chosen ∈ (parse_tasks tasks).map (fun t => t.tid) := by
    rw [← hpt]
    exact List.mem_map_of_mem _ hmem
  have hcs : checkStatus status = status := by
    unfold checkStatus
    rcases hs with rfl | rfl <;> rw [if_neg (by decide)]
  have hcore : addCore (parse_tasks tasks) status true chosen =
      (some chosen, if p.status = some (str "completed") then status else str "suspended") := by
    unfold addCore
    rw [if_pos ⟨hne, rfl, hchos⟩]
    have hgate : depDowngrade (parse_tasks tasks) status chosen =
        if p.status = some (str "completed") then status else str "suspended" := by
      unfold depDowngrade
      rw [if_pos hs]
      unfold parentStatus
      rw [hfind]
      by_cases hps : p.status = some (str "completed")
      · rw [if_neg (fun hcon => hcon hps), if_pos hps]
      · rw [if_pos hps, if_neg hps]
    rw [hgate]
  simp only [add]
  rw [hcs, hcore]

/-- C7 witness: a store whose single task is `completed` keeps the
requested `started`; a store whose single task is `suspended` forces
the new task to `suspended`. -/
theorem c7_create_dependency_gate_witness :
    (add [str "1;a;None;completed;None"] (str "c") none (str "started") true 1).2.2.2 =
      str "2;c;None;started;1\n" ∧
    (add [str "1;b;None;suspended;None"] (str "c") none (str "started") true 1).2.2.2 =
      str "2;c;None;suspended;1\n" := by
  constructor
  · have h := c7_create_dependency_gate [str "1;a;None;completed;None"] (str "c") none
      (str "started") 1 ⟨1, str "a", [], some (str "completed"), none⟩ (Or.inl rfl) (by decide)
    rw [h]
    decide
  · have h := c7_create_dependency_gate [str "1;b;None;suspended;None"] (str "c") none
      (str "started") 1 ⟨1, str "b", [], some (str "suspended"), none⟩ (Or.inl rfl) (by decide)
    rw [h]
    decide

/-- C8 counterexample: an id is reused after removal.  On the store
`{1, 2}`, removing id 2 and creating a task assigns id 2 again
(`max + 1` of the remaining store), contradicting the claim that a
removed id is never assigned again. -/
theorem c8_id_reuse_counterexample :
    rm [str "1;a;None;suspended;None", str "2;b;None;suspended;None"] (str "2") =
      (true, [⟨1, str "a", [], some (str "suspended"), none⟩],
        some ⟨2, str "b", [], some (str "suspended"), none⟩) ∧
    (add [str "1;a;None;suspended;None"] (str "c") none (str "suspended") false 0).1 = 2 :=
  ⟨by decide, by decide⟩

/-- C8 (amended): `Create` assigns `1 + max(existing ids)` on a
non-empty store and 1 on an empty one, and consequently never assigns
an id that is ≤ the id of some existing record — so a removed id stays
unused exactly as long as a record with an id at least as large remains;
once every such record is removed too, the id can be reassigned. -/
theorem c8_id_assignment_amended (tasks : List Str) (details : Str)
    (labels : Option (List Str)) (status : Str) (wantDep : Bool) (chosen : Int) :
    (parse_tasks tasks = [] → (add tasks details labels status wantDep chosen).1 = 1) ∧
    (parse_tasks tasks ≠ [] →
      (add tasks details labels status wantDep chosen).1 = maxIds (parse_tasks tasks) + 1) ∧
    (∀ r : Int, (∃ t ∈ parse_tasks tasks, r ≤ t.tid) →
      (add tasks details labels status wantDep chosen).1 ≠ r) := by
  have hid : (add tasks details labels status wantDep chosen).1 = newId (parse_tasks tasks) := by
    simp only [add]
  refine ⟨?_, ?_, ?_⟩
  · intro h
    rw [hid]
    unfold newId
    rw [if_neg (fun hc => hc h)]
  · intro h
    rw [hid]
    unfold newId
    rw [if_pos h]
  · rintro r ⟨t, hmem, hle⟩
    rw [hid]
    unfold newId
    rw [if_pos (List.ne_nil_of_mem hmem)]
    have := le_maxIds hmem
    omega

/-- C8 witness: a singleton store `{1}` gets id 2, an empty store gets
id 1, and the store `{5}` never hands out the previously removed id 3. -/
theorem c8_id_assignment_amended_witness :
    (add [str "1;a;None;suspended;None"] (str "c") none (str "suspended") false 0).1 = 2 ∧
    (add ([] : List Str) (str "c") none (str "suspended") false 0).1 = 1 ∧
    (add [str "5;a;None;suspended;None"] (str "c") none (str "suspended") false 0).1 ≠ 3 := by
  refine ⟨?_, ?_, ?_⟩
  · have h := (c8_id_assignment_amended [str "1;a;None;suspended;None"] (str "c") none
      (str "suspended") false 0).2.1 (by decide)
    rw [h]
    decide
  · exact (c8_id_assignment_amended [] (str "c") none (str "suspended") false 0).1 rfl
  · exact (c8_id_assignment_amended [str "5;a;None;suspended;None"] (str "c") none
      (str "suspended") false 0).2.2 3
      ⟨⟨5, str "a", [], some (str "suspended"), none⟩, by decide, by decide⟩

lemma storeIds_append (A B : List Task) : storeIds (A ++ B) = storeIds A ++ storeIds B :=
  List.map_append _ A B

lemma storeIds_splitFirst_update {parsed b a : List Task} {t t' : Task} {tid : Int}
    (h : splitFirst parsed tid = some (b, t, a)) (ht : t'.tid = t.tid) :
    storeIds (b ++ t' :: a) = storeIds parsed := by
  obtain ⟨he, -⟩ := splitFirst_eq h
  rw [he]
  unfold storeIds
  rw [List.map_append, List.map_append, List.map_cons, List.map_cons, ht]

lemma nodup_splitFirst_update {parsed b a : List Task} {t t' : Task} {tid : Int}
    (h : splitFirst parsed tid = some (b, t, a)) (ht : t'.tid = t.tid)
    (hn : (storeIds parsed).Nodup) : (storeIds (b ++ t' :: a)).Nodup := by
  rw [storeIds_splitFirst_update h ht]
  exact hn

lemma newId_not_mem {parsed : List Task} : newId parsed ∉ storeIds parsed := by
  intro hmem
  rcases List.mem_map.mp hmem with ⟨t, hmem', ht⟩
  have h1 := le_maxIds hmem'
  unfold newId at ht
  rw [if_pos (List.ne_nil_of_mem hmem')] at ht
  omega

/-- Any line written by `add` parses back to a record carrying the
freshly assigned id, whatever the description, labels and status are. -/
lemma parseLine?_taskLine_tid {T p1 L S D : Str} {tid : Int}
    (hstrip : pyStrip (taskLine T p1 L S D) =
      T ++ str ";" ++ p1 ++ str ";" ++ L ++ str ";" ++ S ++ str ";" ++ D)
    (hT : pyInt? T = some tid) (hsT : ';' ∉ T) :
    ∃ t', parseLine? (taskLine T p1 L S D) = some t' ∧ t'.tid = tid := by
  have hC : T ++ str ";" ++ p1 ++ str ";" ++ L ++ str ";" ++ S ++ str ";" ++ D =
      T ++ ';' :: (p1 ++ ';' :: (L ++ ';' :: (S ++ ';' :: D))) := by
    simp [str]
  have hne : T ++ ';' :: (p1 ++ ';' :: (L ++ ';' :: (S ++ ';' :: D))) ≠ [] := by
    intro h
    rcases List.append_eq_nil.mp h with ⟨-, h2⟩
    exact List.cons_ne_nil _ _ h2
  unfold parseLine?
  rw [hstrip, hC, if_neg hne, pySplit_append_sep T _ hsT]
  cases hr : pySplit ';' (p1 ++ ';' :: (L ++ ';' :: (S ++ ';' :: D))) with
  | nil => exact absurd hr (pySplit_ne_nil ';' _)
  | cons r0 rrest =>
    show ∃ t', parseFields T r0 rrest = some t' ∧ t'.tid = tid
    unfold parseFields
    rw [hT]
    exact ⟨_, rfl, rfl⟩

lemma mkAddLine_parses_tid (nid : Int) (details lstr status : Str) (id_dep : Option Int) :
    ∃ t', parseLine? (mkAddLine nid details lstr status id_dep) = some t' ∧ t'.tid = nid := by
  obtain ⟨c, T', hcT, hc⟩ := pyStrOfInt_head_decomp nid
  cases id_dep with
  | none =>
    show ∃ t',
      parseLine? (taskLine (pyStrOfInt nid) details lstr status (str "None")) = some t' ∧
        t'.tid = nid
    rw [hcT, show (str "None" : Str) = str "Non" ++ ['e'] from rfl]
    refine parseLine?_taskLine_tid
      (pyStrip_taskLine T' details lstr status (str "Non") hc (by decide)) ?_ ?_
    · rw [← hcT]
      exact pyInt?_pyStrOfInt nid
    · rw [← hcT]
      exact not_semicolon_pyStrOfInt nid
  | some v =>
    obtain ⟨D', d, hdD, hd⟩ := pyStrOfInt_concat_decomp v
    show ∃ t',
      parseLine? (taskLine (pyStrOfInt nid) details lstr status (pyStrOfInt v)) = some t' ∧
        t'.tid = nid
    rw [hcT, hdD]
    refine parseLine?_taskLine_tid
      (pyStrip_taskLine T' details lstr status D' hc hd) ?_ ?_
    · rw [← hcT]
      exact pyInt?_pyStrOfInt nid
    · rw [← hcT]
      exact not_semicolon_pyStrOfInt nid

/-- C9 counterexample: the parser does not enforce id uniqueness — a
file with two lines carrying id 1 parses to a store with duplicate ids. -/
theorem c9_duplicate_ids_counterexample :
    (storeIds (parse_tasks [str "1;a;None", str "1;b;None"])) = [1, 1] ∧
    ¬ (storeIds (parse_tasks [str "1;a;None", str "1;b;None"])).Nodup :=
  ⟨by decide, by decide⟩

/-- C9 (amended): a store parsed from an arbitrary file may contain
duplicate ids, but id distinctness is preserved by every mutation: on a
store whose parsed ids are pairwise distinct, the store produced by
`add` (the appended line carries the fresh id `max + 1`), `modify`,
`rm`, `add_options`, `rmLabel`, `clearLabel` and `rmDep` again has
pairwise-distinct ids (the operations never change an id). -/
theorem c9_uniqueness_amended (tasks : List Str)
    (h : (storeIds (parse_tasks tasks)).Nodup) :
    (∀ details labels status wantDep chosen,
      (storeIds (parse_tasks (tasks ++
        [(add tasks details labels status wantDep chosen).2.2.2]))).Nodup) ∧
    (∀ task_id nd ns, (storeIds (modify tasks task_id nd ns).2.1).Nodup) ∧
    (∀ task_id, (storeIds (rm tasks task_id).2.1).Nodup) ∧
    (∀ task_id labels id_dep overwrite,
      (storeIds (add_options tasks task_id labels id_dep overwrite).2.1).Nodup) ∧
    (∀ task_id ans res, rmLabel tasks task_id ans = some res → (storeIds res.2.1).Nodup) ∧
    (∀ task_id res, clearLabel tasks task_id = some res → (storeIds res.2.1).Nodup) ∧
    (∀ task_id res, rmDep tasks task_id = some res → (storeIds res.2.1).Nodup) := by
  refine ⟨?_, ?_, ?_, ?_, ?_, ?_, ?_⟩
  · intro details labels status wantDep chosen
    have hline : (add tasks details labels status wantDep chosen).2.2.2 =
        mkAddLine (newId (parse_tasks tasks)) details (labelsStr (labelsList labels))
          (addCore (parse_tasks tasks) (checkStatus status) wantDep chosen).2
          (addCore (parse_tasks tasks) (checkStatus status) wantDep chosen).1 := by
      simp only [add]
    obtain ⟨t', hpar, htid⟩ := mkAddLine_parses_tid (newId (parse_tasks tasks)) details
      (labelsStr (labelsList labels))
      (addCore (parse_tasks tasks) (checkStatus status) wantDep chosen).2
      (addCore (parse_tasks tasks) (checkStatus status) wantDep chosen).1
    have happ : parse_tasks (tasks ++
        [(add tasks details labels status wantDep chosen).2.2.2]) =
        parse_tasks tasks ++ [t'] := by
      rw [hline, parse_tasks_append, parse_tasks_keep hpar []]
      rfl
    rw [happ, storeIds_append, List.nodup_append]
    refine ⟨h, by simp [storeIds], ?_⟩
    intro i hi hmem
    rcases List.mem_singleton.mp (by simpa [storeIds] using hmem) with rfl
    rw [htid] at hi
    exact newId_not_mem hi
  · intro task_id nd ns
    cases hint : pyInt? task_id with
    | none =>
      simp only [modify, hint]
      exact List.nodup_nil
    | some tid =>
      cases hsp : splitFirst (parse_tasks tasks) tid with
      | none =>
        simp only [modify, hint, hsp]
        exact h
      | some p =>
        obtain ⟨b, t, a⟩ := p
        simp only [modify, hint, hsp]
        exact nodup_splitFirst_update hsp rfl h
  · intro task_id
    cases hint : pyInt? task_id with
    | none =>
      simp only [rm, hint]
      exact h
    | some tid =>
      simp only [rm, hint]
      exact h.sublist (List.Sublist.map _ (List.filter_sublist _))
  · intro task_id labels id_dep overwrite
    cases hint : pyInt? task_id with
    | none =>
      simp only [add_options, hint]
      exact List.nodup_nil
    | some tid =>
      cases hsp : splitFirst (parse_tasks tasks) tid with
      | none =>
        simp only [add_options, hint, hsp]
        exact h
      | some p =>
        obtain ⟨b, t, a⟩ := p
        simp only [add_options, hint, hsp]
        exact nodup_splitFirst_update hsp rfl h
  · intro task_id ans res hres
    cases hint : pyInt? task_id with
    | none =>
      simp only [rmLabel, hint, Option.some.injEq] at hres
      rw [← hres]
      exact List.nodup_nil
    | some tid =>
      cases hsp : splitFirst (parse_tasks tasks) tid with
      | none =>
        simp only [rmLabel, hint, hsp] at hres
        exact Option.noConfusion hres
      | some p =>
        obtain ⟨b, t, a⟩ := p
        by_cases hlabs : t.labels ≠ []
        · cases ans with
          | none =>
            simp only [rmLabel, hint, hsp] at hres
            rw [if_pos hlabs] at hres
            simp only [Option.some.injEq] at hres
            rw [← hres]
            exact h
          | some n =>
            simp only [rmLabel, hint, hsp] at hres
            rw [if_pos hlabs] at hres
            by_cases hn : n < t.labels.length
            · rw [if_pos hn] at hres
              simp only [Option.some.injEq] at hres
              rw [← hres]
              exact nodup_splitFirst_update hsp rfl h
            · rw [if_neg hn] at hres
              simp only [Option.some.injEq] at hres
              rw [← hres]
              exact h
        · simp only [rmLabel, hint, hsp] at hres
          rw [if_neg hlabs] at hres
          simp only [Option.some.injEq] at hres
          rw [← hres]
          exact nodup_splitFirst_update hsp rfl h
  · intro task_id res hres
    cases hint : pyInt? task_id with
    | none =>
      simp only [clearLabel, hint, Option.some.injEq] at hres
      rw [← hres]
      exact List.nodup_nil
    | some tid =>
      cases hsp : splitFirst (parse_tasks tasks) tid with
      | none =>
        simp only [clearLabel, hint, hsp] at hres
        exact Option.noConfusion hres
      | some p =>
        obtain ⟨b, t, a⟩ := p
        simp only [clearLabel, hint, hsp, Option.some.injEq] at hres
        rw [← hres]
        exact nodup_splitFirst_update hsp rfl h
  · intro task_id res hres
    cases hint : pyInt? task_id with
    | none =>
      simp only [rmDep, hint, Option.some.injEq] at hres
      rw [← hres]
      exact List.nodup_nil
    | some tid =>
      cases hsp : splitFirst (parse_tasks tasks) tid with
      | none =>
        simp only [rmDep, hint, hsp] at hres
        exact Option.noConfusion hres
      | some p =>
        obtain ⟨b, t, a⟩ := p
        simp only [rmDep, hint, hsp, Option.some.injEq] at hres
        rw [← hres]
        exact nodup_splitFirst_update hsp rfl h

/-- C9 witness: on the singleton store `{1}`, both a modification and a
create keep the parsed ids pairwise distinct. -/
theorem c9_uniqueness_amended_witness :
    (storeIds (modify [str "1;a;None;suspended;None"] (str "1") (some (str "z")) none).2.1).Nodup ∧
    (storeIds (parse_tasks ([str "1;a;None;suspended;None"] ++
      [(add [str "1;a;None;suspended;None"] (str "c") none (str "suspended")
        false 0).2.2.2]))).Nodup := by
  have h := c9_uniqueness_amended [str "1;a;None;suspended;None"] (by decide)
  exact ⟨h.2.1 (str "1") (some (str "z")) none, h.1 (str "c") none (str "suspended") false 0⟩

/-- C10: the parser indeed carries a status token outside the enum
verbatim (first conjunct, as the claim states), but the claim's tail —
that every mutation preserves and re-serializes it — fails: `modify`
without a new status overwrites the slot with `None`, so the rewritten
line carries `None` instead of `bogus`. -/
theorem c10_bogus_status_not_preserved :
    parse_tasks [str "1;x;None;bogus;None"] = [⟨1, str "x", [], some (str "bogus"), none⟩] ∧
    commands_modify [str "1;x;None;bogus;None"] (str "1") (some (str "y")) none =
      ModifyOutcome.rewritten [str "1;y;None;None;None\n"] :=
  ⟨by decide, by decide⟩

end TaskManager
